import Mathlib

/-!
Verification development for the dang waveform-backed RISC-V debugger.

The definitions below are a shallow embedding of the Rust sources:
  * the waveform execution engine (`src/runtime.rs`, `dang/src/waveloader.rs`,
    `dang/src/convert.rs`, `dang/src/gdb.rs`),
  * the RSP client (`shucks/src/packet.rs`, `shucks/src/commands.rs`,
    `shucks/src/response.rs`, `shucks/src/lib.rs`),
  * the DWARF line stepper (`shucks/src/addr2line_stepper.rs`).

Machine integers are mapped to `Nat` with explicit `% 256` / bounds where the
Rust code wraps or checks; byte buffers are `List Nat` (each entry a `u8`,
so < 256); fallible Rust code returns `Option` / `Except`; a Rust `panic`
(`unwrap` / `expect`) is modelled by an outer `Option` that is `none` exactly
when the source would panic.
-/

deriving instance DecidableEq for Except

namespace Dang

/-- Bytes of an ASCII string, as natural numbers.  Every string constant used
below is plain ASCII, so this agrees with the UTF-8 bytes of the Rust source. -/
def ascii (s : String) : List Nat := s.data.map Char.toNat

/-! ### Signal values (wellen `SignalValue`, as consumed by `convert.rs`)

A wellen `SignalValue::Binary(val, bits)` carries the raw byte slice `val`
(most-significant byte first) and the declared bit width `bits`.  All other
wellen variants (four-state, nine-state, string, real) are rejected by
`Mappable::try_from_signal`, so they are collapsed into one constructor. -/

inductive SignalValue where
  | binary (bytes : List Nat) (bits : Nat)
  | nonBinary
deriving DecidableEq

/-- Big-endian value of a byte list: `u32::from_be_bytes` on a 4-byte array. -/
def from_be_bytes (bytes : List Nat) : Nat :=
  bytes.foldl (fun a b => a * 256 + b) 0

/-- Embedding of `<u32 as Mappable>::try_from_signal` (dang/src/convert.rs,
`impl_mappable_basic!(u32)`): a `Binary(val, bits)` converts only when
`bits <= 32` and, additionally, `val.try_into() : Result<[u8; 4], _>`
succeeds, i.e. the byte slice has length exactly 4; the value is then read
big-endian.  Everything else yields `None`. -/
def try_from_signal_u32 : SignalValue → Option Nat
  | .binary val bits =>
      if bits ≤ 32 then
        (if val.length = 4 then some (from_be_bytes val) else none)
      else none
  | .nonBinary => none

/-! ### Signals and the offset index

A wellen `Signal` is consumed through `WellenSignalExt`
(dang/src/waveloader.rs).  The spec describes the library's offset index:
for a time index `idx`, `get_offset(idx)` yields the change point `≤ idx`
together with a pointer to the next change point, or nothing when `idx`
precedes the first change.  We model a signal by its ordered list of change
points `(time_idx, value)` and `get_offset` by the position of the greatest
change point `≤ idx` in that list. -/

structure Signal where
  changes : List (Nat × SignalValue)
deriving DecidableEq

/-- Position (index into `cs`) of the last change point whose time is `≤ idx`;
`none` when `idx` precedes the first change.  This is the model of the wellen
offset lookup described in the spec's data model. -/
def floorPos : List (Nat × SignalValue) → Nat → Option Nat
  | [], _ => none
  | c :: rest, idx =>
      if idx < c.1 then none
      else
        match floorPos rest idx with
        | some p => some (p + 1)
        | none => some 0

/-- Embedding of `WellenSignalExt::try_get_val` (dang/src/waveloader.rs):
value at the change point governing `idx`. -/
def try_get_val (s : Signal) (idx : Nat) : Option SignalValue :=
  (floorPos s.changes idx).bind fun p => (s.changes[p]?).map Prod.snd

/-- Embedding of `WellenSignalExt::try_get_next_val` (dang/src/waveloader.rs):
`get_offset(idx)`, follow its `next_index` pointer, and return the value and
time index of that next change point. -/
def try_get_next_val (s : Signal) (idx : Nat) : Option (SignalValue × Nat) :=
  (floorPos s.changes idx).bind fun p =>
    match s.changes[p + 1]? with
    | some c => some (c.2, c.1)
    | none => none

/-! ### The engine state (`src/runtime.rs`)

`WaveCursor.all_changes` and `all_times` are never read by the operations
verified here (`next_pc`, `step`, breakpoints, monitor), so only `time_idx`
is carried.  `DummyMem` is read in `step` solely for a log line
(`DummyMem::r8` is total: unmapped addresses read 0), so it has no effect on
any returned value and is omitted. -/

structure WaveCursor where
  time_idx : Nat
deriving DecidableEq

structure Waver where
  pc : Signal
  gprs : List Signal
  cursor : WaveCursor
  breakpoints : List Nat
deriving DecidableEq

inductive Event where
  | DoneStep
  | Halted
  | Break
deriving DecidableEq

/-- Embedding of `Waver::get_current_pc::<u32>` (src/runtime.rs).  The source
calls `get_val` (an `unwrap` of `try_get_val`) and `from_signal` (an `expect`
of `try_from_signal`); both panics are modelled by `none`. -/
def get_current_pc? (w : Waver) : Option Nat :=
  (try_get_val w.pc w.cursor.time_idx).bind try_from_signal_u32

/-- Embedding of `Waver::get_current_gpr` (src/runtime.rs), with the
out-of-bounds index panic and the conversion panic both modelled by `none`. -/
def get_current_gpr? (w : Waver) (idx : Nat) : Option Nat :=
  ((w.gprs[idx]?).bind fun s => try_get_val s w.cursor.time_idx).bind
    try_from_signal_u32

/-- Cursor update helper: the only mutation `next_pc` performs. -/
def set_time (w : Waver) (t : Nat) : Waver :=
  { w with cursor := { time_idx := t } }

/-- Embedding of `Waver::next_pc` (src/runtime.rs).  The outer `Option` is
`none` exactly when the source panics (inside `get_current_pc`); otherwise the
result is the returned `Option<u32>` paired with the updated engine state.
Note the source order: `prev_pc` is read first, then `try_get_next_val` with
`?` (returning `None` without touching the cursor when the chain is
exhausted), then `self.cursor.time_idx = idx` unconditionally, and finally the
equality test `Some(prev_pc) == new_pc`. -/
def next_pc (w : Waver) : Option (Option Nat × Waver) :=
  match get_current_pc? w with
  | none => none
  | some prev_pc =>
      match try_get_next_val w.pc w.cursor.time_idx with
      | none => some (none, w)
      | some (sig, idx) =>
          let new_pc := try_from_signal_u32 sig
          let w' := set_time w idx
          if new_pc = some prev_pc then some (none, w') else some (new_pc, w')

/-- Embedding of `Waver::step` (src/runtime.rs).  On `Some(pc)` the
breakpoint list is tested against `pc` (the arrival PC returned by
`next_pc`); on `None` the source re-reads `get_current_pc` for a log line
(which can panic, hence the inner guard) and reports `Halted`. -/
def step (w : Waver) : Option (Option Event × Waver) :=
  match next_pc w with
  | none => none
  | some (some pc, w') =>
      some (if pc ∈ w'.breakpoints then some Event.Break else none, w')
  | some (none, w') =>
      match get_current_pc? w' with
      | none => none
      | some _ => some (some Event.Halted, w')

/-! ### Breakpoints (dang/src/gdb.rs, `impl SwBreakpoint for Waver`) -/

/-- Embedding of `add_sw_breakpoint`: an unconditional `Vec::push`. -/
def add_sw_breakpoint (w : Waver) (addr : Nat) : Waver × Bool :=
  ({ w with breakpoints := w.breakpoints ++ [addr] }, true)

/-- Embedding of `remove_sw_breakpoint`: `position` of the first equal
element, then `Vec::remove` at that position. -/
def remove_sw_breakpoint (w : Waver) (addr : Nat) : Waver × Bool :=
  match w.breakpoints.findIdx? (fun x => x == addr) with
  | none => (w, false)
  | some pos => ({ w with breakpoints := w.breakpoints.eraseIdx pos }, true)

/-- ASCII apostrophe, kept out of string literals. -/
def apos : String := String.singleton (Char.ofNat 39)

/-- Embedding of `MonitorCmd::handle_monitor_cmd` (dang/src/gdb.rs) for a
UTF-8 command string: the console output produced by `outputln!` (which
appends a newline). -/
def handle_monitor_cmd (w : Waver) (cmd : String) : String :=
  if cmd = "" then
    "WHAT DID YOU SAY?! SPEAK UP! I WILL CRAWL THROUGH THE TERMINAL :)! I AM JUST BEING SILLY!\n"
  else if cmd = "time_idx" then
    toString w.cursor.time_idx ++ "\n"
  else
    "I don" ++ apos ++ "t know how to handle " ++ apos ++ cmd ++ apos ++ "\n"

/-! ### Signal-map validation (dang/src/waveloader.rs)

For validation only the key set of the script's name-to-signal map matters,
so the map is modelled by the list of its keys.  A failed Python invocation
is `none`; a successful one is `some keys`. -/

structure ValidationResult where
  signals : Option (List String)
deriving DecidableEq

/-- Names required by the engine, in the order `validate_get_signals` checks
them: `pc` first, then `x0` through `x31`. -/
def missing_signals (names : List String) : List String :=
  (if "pc" ∈ names then [] else ["pc"]) ++
    (List.range 32).filterMap (fun i =>
      let s := "x" ++ toString i
      if s ∈ names then none else some s)

/-- Embedding of the tail of `validate_get_signals`
(dang/src/waveloader.rs:275-304): when the Python call succeeded, the
function computes `missing_signals` but then drops the vector on the floor
and returns `ValidationResult { signals: Some(wellen_signals) }`
unconditionally; when the call failed it returns `signals: None`. -/
def validate_get_signals (py_result : Option (List String)) : ValidationResult :=
  { signals := py_result }

inductive LoadOutcome where
  | ok
  | err (msg : String)
  | panicked (msg : String)
deriving DecidableEq

/-- Embedding of the signal-extraction part of `Loaded::create_loaded_waves`
(dang/src/waveloader.rs:134-152): an `Err` is returned only when
`validate_get_signals` produced `signals == None`; a map that is present but
lacks `pc` or some `x{i}` makes the source panic through
`HashMap::remove(..).expect(..)`. -/
def create_loaded_waves (py_result : Option (List String)) : LoadOutcome :=
  match (validate_get_signals py_result).signals with
  | none => .err "Failed to validate get_gdb_signals"
  | some names =>
      if "pc" ∉ names then .panicked "No signal provided named pc!"
      else if (List.range 32).all (fun i => ("x" ++ toString i) ∈ names) then .ok
      else .panicked "No signal named x\x7bval\x7d provided"

/-! ### RSP client: packet serialization (shucks/src/packet.rs, commands.rs)

`PacketCursor` wraps a byte buffer and a running `u64` sum.  The buffer is
modelled as the list of bytes written so far; the sum as a `Nat` (command
contents are tiny, so the `u64` addition never wraps). -/

structure PacketCursor where
  buf : List Nat
  sum : Nat
deriving DecidableEq

def PacketCursor.empty : PacketCursor := ⟨[], 0⟩

/-- Embedding of `PacketCursor::write` (shucks/src/packet.rs): appends the
bytes and adds every written byte, including the leading `$`, to the
checksum sum. -/
def PacketCursor.write (c : PacketCursor) (bytes : List Nat) : PacketCursor :=
  { buf := c.buf ++ bytes, sum := c.sum + bytes.foldl (· + ·) 0 }

/-- Modelled from the spec: `PacketCursor::write_content` is called throughout
shucks/src/commands.rs but its definition is absent from
shucks/src/packet.rs in this tree.  The spec states the checksum is the
sum-mod-256 of the packet content, so `write_content` must append the content
bytes and add them to the running sum, i.e. behave exactly like `write`. -/
def PacketCursor.write_content (c : PacketCursor) (bytes : List Nat) : PacketCursor :=
  c.write bytes

/-- Lowercase hex digit (ASCII code) of a value below 16. -/
def hex_digit_lower (n : Nat) : Nat :=
  if n < 10 then 48 + n else 87 + n

/-- ASCII bytes produced by Rust lowercase-hex formatting without padding
(the format spec used by `finish` and by `format!` in `commands.rs`):
minimal length, lowercase digits, and `0` renders as a single `0` digit.
`Nat.toDigits 16` produces exactly this representation. -/
def hex_bytes_lower (n : Nat) : List Nat :=
  (Nat.toDigits 16 n).map Char.toNat

/-- Embedding of `PacketCursor::finish` (shucks/src/packet.rs): appends
`#` followed by the unpadded lowercase hex of `sum % 256` and returns the
whole buffer. -/
def PacketCursor.finish (c : PacketCursor) : List Nat :=
  c.buf ++ (35 :: hex_bytes_lower (c.sum % 256))

/-- Zero-padded two-digit lowercase hex of one byte, concatenated over a byte
list (Rust `format!` with the 02x spec per byte; `GdbResponse::encode_hex`). -/
def encode_hex (bytes : List Nat) : List Nat :=
  bytes.flatMap (fun b => [hex_digit_lower (b / 16 % 16), hex_digit_lower (b % 16)])

/-- Command set of shucks/src/commands.rs.  The `QRcmd` variant is referenced
by `shucks/src/lib.rs` and `shucks/src/client.rs` but missing from the
`Base` enum in commands.rs in this tree; it is included here (modelled from
the spec's `qRcmd,<hex>` wire format) so that `Packet::is_monitor_command`
can be embedded. -/
inductive Base where
  | QuestionMark
  | D
  | LowerG
  | UpperG
  | H
  | K
  | LowerM (addr : Nat) (length : Nat)
  | UpperM
  | QAttached
  | QfThreadInfo
  | QsThreadInfo
  | QSupported
  | T
  | VKill
  | QStartNoAckMode
  | QXferExecFile (off : Nat) (length : Nat)
  | QRcmd (command : String)
deriving DecidableEq

/-- Embedding of `Base::base_str` (shucks/src/commands.rs). -/
def Base.base_str : Base → String
  | .QuestionMark => "?"
  | .D => "D"
  | .LowerG => "g"
  | .UpperG => "G"
  | .H => "H"
  | .K => "k"
  | .LowerM _ _ => "m"
  | .UpperM => "M"
  | .QsThreadInfo => "qsThreadInfo"
  | .QfThreadInfo => "qfThreadInfo"
  | .QSupported => "qSupported"
  | .VKill => "vKill"
  | .QStartNoAckMode => "QStartNoAckMode"
  | .QAttached => "qAttached"
  | .T => "T"
  | .QXferExecFile _ _ => "qXfer:exec-file:read"
  | .QRcmd _ => "qRcmd"

/-- Embedding of `Base::to_cmd` (shucks/src/commands.rs:89-109): write `$`
(via `write`, so it enters the sum), then the command name and arguments via
`write_content`, then `finish`.  The `QRcmd` argument serialization is
modelled from the spec (`qRcmd,<hex-of-command>`); every other arm is a
direct translation. -/
def Base.to_cmd (b : Base) : List Nat :=
  let c := PacketCursor.empty.write (ascii "$")
  let c := c.write_content (ascii b.base_str)
  let c :=
    match b with
    | .QSupported => c.write_content (ascii ":xmlRegisters=riscv")
    | .LowerM addr len =>
        c.write_content (hex_bytes_lower addr ++ [44] ++ hex_bytes_lower len)
    | .QXferExecFile off len =>
        c.write_content (ascii "::" ++ hex_bytes_lower off ++ [44] ++ hex_bytes_lower len)
    | .QRcmd cmd => c.write_content ([44] ++ encode_hex (ascii cmd))
    | _ => c
  c.finish

inductive Resume where
  | Continue
  | Step
  | VCont
deriving DecidableEq

/-- Embedding of `Resume::base_str` (shucks/src/commands.rs). -/
def Resume.base_str : Resume → String
  | .Step => "s"
  | .Continue => "c"
  | .VCont => "vCont"

/-- Embedding of `Resume::to_cmd` (shucks/src/commands.rs:55-64). -/
def Resume.to_cmd (r : Resume) : List Nat :=
  ((PacketCursor.empty.write (ascii "$")).write_content (ascii r.base_str)).finish

inductive GdbCommand where
  | base (b : Base)
  | resume (r : Resume)
deriving DecidableEq

/-- Embedding of `GdbCommand::to_command`. -/
def GdbCommand.to_command : GdbCommand → List Nat
  | .base b => b.to_cmd
  | .resume r => r.to_cmd

/-- Top-level packet type (shucks/src/lib.rs). -/
inductive Packet where
  | Ack
  | Command (c : GdbCommand)
deriving DecidableEq

/-- Embedding of `Packet::is_memory_read` (shucks/src/lib.rs). -/
def Packet.is_memory_read : Packet → Bool
  | .Command (.base (.LowerM _ _)) => true
  | _ => false

/-- Embedding of `Packet::is_register_read` (shucks/src/lib.rs). -/
def Packet.is_register_read : Packet → Bool
  | .Command (.base .LowerG) => true
  | _ => false

/-- Embedding of `Packet::is_monitor_command` (shucks/src/lib.rs). -/
def Packet.is_monitor_command : Packet → Bool
  | .Command (.base (.QRcmd _)) => true
  | _ => false

/-! ### RSP client: response parsing (shucks/src/response.rs) -/

inductive ParseError where
  | InvalidFormat (msg : String)
  | InvalidChecksum
  | InvalidHex
  | IncompletePacket
  | IoError
deriving DecidableEq

inductive ThreadId where
  | Any
  | All
  | Specific (tid : Nat)
  | Process (pid : Nat) (tid : Nat)
deriving DecidableEq

inductive StopReason where
  | Signal (s : Nat)
  | Breakpoint
  | Watchpoint (addr : Nat)
  | SingleStep
  | ProcessExit (code : Nat)
  | Unknown
deriving DecidableEq

/-- Response taxonomy (shucks/src/response.rs).  String payloads that the
source produces with `String::from_utf8_lossy` are carried as their byte
lists here (the lossy replacement-character conversion plays no role in any
verified property). -/
inductive GdbResponse where
  | Ack
  | Nack
  | Ok
  | Empty
  | Error (code : Nat)
  | StopReply (signal : Nat) (thread_id : Option ThreadId) (reason : StopReason)
  | MemoryData (data : List Nat)
  | RegisterData (data : List Nat)
  | ThreadInfo (threads : List ThreadId) (more_data : Bool)
  | Supported (features : List (List Nat))
  | QXferData (data : List Nat) (is_final : Bool)
  | BinaryData (data : List Nat)
  | MonitorOutput (output : List Nat)
  | Raw (data : List Nat)
deriving DecidableEq

/-- Content bytes of a framed packet with the framing overhead count
(shucks/src/response.rs `RawGdbResponse`). -/
structure RawGdbResponse where
  data : List Nat
  omitted : Nat
deriving DecidableEq

/-- Embedding of `Iterator::position` as used on byte slices. -/
def list_position (p : Nat → Bool) : List Nat → Option Nat
  | [] => none
  | a :: l => if p a then some 0 else (list_position p l).map (· + 1)

/-- Test for `u8::is_ascii_digit`. -/
def is_ascii_digit (b : Nat) : Bool := decide (48 ≤ b ∧ b ≤ 57)

/-- Hex-digit test used throughout response.rs: `is_ascii_digit`, `a..=f`,
or `A..=F` (this is also `char::is_ascii_hexdigit` restricted to one byte). -/
def is_hex_digit_byte (b : Nat) : Bool :=
  decide ((48 ≤ b ∧ b ≤ 57) ∨ (97 ≤ b ∧ b ≤ 102) ∨ (65 ≤ b ∧ b ≤ 70))

/-- Numeric value of one hex-digit byte. -/
def hex_digit_val (b : Nat) : Option Nat :=
  if 48 ≤ b ∧ b ≤ 57 then some (b - 48)
  else if 97 ≤ b ∧ b ≤ 102 then some (b - 87)
  else if 65 ≤ b ∧ b ≤ 70 then some (b - 55)
  else none

/-- Embedding of `u8::from_str_radix(s, 16)` on a two-character string:
Rust also accepts a leading `+` sign, and two hex digits can never overflow
a `u8`. -/
def u8_from_hex2 (a b : Nat) : Option Nat :=
  if a = 43 then hex_digit_val b
  else
    match hex_digit_val a, hex_digit_val b with
    | some ha, some hb => some (16 * ha + hb)
    | _, _ => none

/-- UTF-8 continuation byte test. -/
def utf8_cont (b : Nat) : Bool := decide (128 ≤ b ∧ b ≤ 191)

/-- Validity of a two-byte slice as a UTF-8 string (either two ASCII bytes or
one two-byte sequence), as checked by `str::from_utf8` on checksum and
error-code fields. -/
def utf8_valid2 (a b : Nat) : Bool :=
  decide ((a < 128 ∧ b < 128) ∨ (194 ≤ a ∧ a ≤ 223 ∧ 128 ≤ b ∧ b ≤ 191))

/-- Embedding of `str::from_utf8(..).is_ok()` on a byte list: the standard
UTF-8 well-formedness check. -/
def utf8_valid : List Nat → Bool
  | [] => true
  | b :: rest =>
      if b < 128 then utf8_valid rest
      else if 194 ≤ b ∧ b ≤ 223 then
        match rest with
        | c1 :: rest' => utf8_cont c1 && utf8_valid rest'
        | _ => false
      else if b = 224 then
        match rest with
        | c1 :: c2 :: rest' =>
            decide (160 ≤ c1 ∧ c1 ≤ 191) && utf8_cont c2 && utf8_valid rest'
        | _ => false
      else if (225 ≤ b ∧ b ≤ 236) ∨ b = 238 ∨ b = 239 then
        match rest with
        | c1 :: c2 :: rest' => utf8_cont c1 && utf8_cont c2 && utf8_valid rest'
        | _ => false
      else if b = 237 then
        match rest with
        | c1 :: c2 :: rest' =>
            decide (128 ≤ c1 ∧ c1 ≤ 159) && utf8_cont c2 && utf8_valid rest'
        | _ => false
      else if b = 240 then
        match rest with
        | c1 :: c2 :: c3 :: rest' =>
            decide (144 ≤ c1 ∧ c1 ≤ 191) && utf8_cont c2 && utf8_cont c3 && utf8_valid rest'
        | _ => false
      else if 241 ≤ b ∧ b ≤ 243 then
        match rest with
        | c1 :: c2 :: c3 :: rest' =>
            utf8_cont c1 && utf8_cont c2 && utf8_cont c3 && utf8_valid rest'
        | _ => false
      else if b = 244 then
        match rest with
        | c1 :: c2 :: c3 :: rest' =>
            decide (128 ≤ c1 ∧ c1 ≤ 143) && utf8_cont c2 && utf8_cont c3 && utf8_valid rest'
        | _ => false
      else false

/-- Embedding of `RawGdbResponse::find_packet_data`
(shucks/src/response.rs:148-207): extract a leading ack/nack, or frame a
`$<content>#XX` packet, validating the two-hex-digit checksum against the
wrapping byte sum of the content. -/
def find_packet_data : List Nat → Except ParseError RawGdbResponse
  | [] => .error (.InvalidFormat "no data")
  | b :: rest =>
      if b = 43 ∨ b = 45 then .ok ⟨[b], 0⟩
      else
        let data := b :: rest
        if data.length < 4 ∨ b ≠ 36 then .error (.InvalidFormat "missing $ prefix")
        else
          match list_position (fun x => x == 35) data with
          | none => .error (.InvalidFormat "missing # separator")
          | some hash_pos =>
              if data.length < hash_pos + 3 then .error (.InvalidFormat "missing checksum")
              else
                let content := (data.take hash_pos).drop 1
                let c1 := data.getD (hash_pos + 1) 0
                let c2 := data.getD (hash_pos + 2) 0
                if utf8_valid2 c1 c2 = false then
                  .error (.InvalidFormat "invalid checksum -- its not a string")
                else
                  match u8_from_hex2 c1 c2 with
                  | none => .error .InvalidChecksum
                  | some expected =>
                      let actual := content.foldl (fun acc x => (acc + x) % 256) 0
                      if actual ≠ expected then .error .InvalidChecksum
                      else .ok ⟨content, 4⟩

/-- Embedding of `GdbResponse::decode_run_length`
(shucks/src/response.rs:537-571): a byte `c` followed by `*` (ASCII 42) and a
count byte `n ≥ 29` expands to `n - 29 + 1` copies of `c`; a count below 29
makes the `c` literal; everything else is copied through. -/
def decode_run_length : List Nat → List Nat
  | c :: 42 :: n :: rest =>
      if 29 ≤ n then List.replicate (n - 29 + 1) c ++ decode_run_length rest
      else c :: decode_run_length (42 :: n :: rest)
  | c :: rest => c :: decode_run_length rest
  | [] => []

/-- Auxiliary recursion of `decode_hex`: the `chunks(2)` loop, where each
chunk goes through `str::from_utf8` and `u8::from_str_radix(.., 16)`, both
failures mapping to `InvalidHex`.  The input length is even, so the one-byte
leftover case is unreachable; it errors for totality. -/
def decode_hex_pairs : List Nat → Except ParseError (List Nat)
  | [] => .ok []
  | a :: b :: rest =>
      if utf8_valid2 a b = false then .error .InvalidHex
      else
        match u8_from_hex2 a b with
        | none => .error .InvalidHex
        | some v => (decode_hex_pairs rest).map (fun l => v :: l)
  | [_] => .error .InvalidHex

/-- Embedding of `GdbResponse::decode_hex` (shucks/src/response.rs:574-589):
reject odd lengths and non-UTF-8 data, then parse two-digit chunks. -/
def decode_hex (hex_data : List Nat) : Except ParseError (List Nat) :=
  if hex_data.length % 2 ≠ 0 then .error .InvalidHex
  else if utf8_valid hex_data = false then .error .InvalidHex
  else decode_hex_pairs hex_data

/-- Embedding of `GdbResponse::is_hex_data` (shucks/src/response.rs). -/
def is_hex_data (content : List Nat) : Bool :=
  !content.isEmpty && content.all is_hex_digit_byte

/-- Scanning loop of `is_hex_data_or_run_length`: run-length triples need a
hex-digit base byte and a count of at least 29; all other bytes must be hex
digits. -/
def is_rle_aux : List Nat → Bool
  | c :: 42 :: n :: rest =>
      if is_hex_digit_byte c && 29 ≤ n then is_rle_aux rest else false
  | c :: rest => if is_hex_digit_byte c then is_rle_aux rest else false
  | [] => true

/-- Embedding of `GdbResponse::is_hex_data_or_run_length`
(shucks/src/response.rs:475-515). -/
def is_hex_data_or_run_length (content : List Nat) : Bool :=
  if content = [] then false
  else if is_hex_data content then true
  else is_rle_aux content

/-- Embedding of `GdbResponse::looks_like_thread_info`
(shucks/src/response.rs:518-532): UTF-8, and every comma-separated part is
`0`, `-1`, or made of hex digits only (an empty part passes, as in Rust). -/
def looks_like_thread_info (content : List Nat) : Bool :=
  if content = [] then false
  else if utf8_valid content = false then false
  else
    (content.splitOn 44).all fun part =>
      part = [48] || part = [45, 49] || part.all is_hex_digit_byte

/-- Embedding of `str::parse::<u32>` on the bytes of one part: optional
leading `+`, at least one digit, decimal digits only, value below 2^32. -/
def parse_dec_u32 (part : List Nat) : Option Nat :=
  let digits := if part.head? = some 43 then part.tail else part
  if digits = [] then none
  else if digits.all is_ascii_digit then
    let v := digits.foldl (fun a b => a * 10 + (b - 48)) 0
    if v < 2 ^ 32 then some v else none
  else none

/-- Embedding of `GdbResponse::parse_thread_info`
(shucks/src/response.rs:435-457). -/
def parse_thread_info (content : List Nat) (more_data : Bool) :
    Except ParseError GdbResponse :=
  if content.length < 2 ∨ content.head? ≠ some 109 then
    .error (.InvalidFormat "thread info packet too short")
  else if utf8_valid (content.drop 1) = false then
    .error (.InvalidFormat "invalid thread info -- its not a string")
  else
    .ok (.ThreadInfo
      (((content.drop 1).splitOn 44).filterMap fun part =>
        if part = [48] then some ThreadId.Any
        else if part = [45, 49] then some ThreadId.All
        else (parse_dec_u32 part).map ThreadId.Specific)
      more_data)

/-- Embedding of `GdbResponse::parse_stop_reply`
(shucks/src/response.rs:417-432). -/
def parse_stop_reply (content : List Nat) : Except ParseError GdbResponse :=
  if content.length < 3 then .error (.InvalidFormat "stop reply packet too short")
  else
    let a := content.getD 1 0
    let b := content.getD 2 0
    if utf8_valid2 a b = false then .error .InvalidHex
    else
      match u8_from_hex2 a b with
      | none => .error .InvalidHex
      | some signal => .ok (.StopReply signal none (.Signal signal))

/-- Embedding of `GdbResponse::parse_supported_response`
(shucks/src/response.rs:460-464): split on semicolons. -/
def parse_supported_response (content : List Nat) : Except ParseError GdbResponse :=
  .ok (.Supported (content.splitOn 59))

/-- Monitor-response arm of `parse_content` (shucks/src/response.rs:316-357):
strip a leading `O`, hex-decode when the remainder is pure hex, otherwise
fall back to the raw bytes (the source's `from_utf8_lossy` string conversion
is carried as bytes). -/
def parse_monitor_output (content : List Nat) : GdbResponse :=
  if content.head? = some 79 ∧ 1 < content.length then
    let hex_content := content.drop 1
    if is_hex_data hex_content then
      match decode_hex hex_content with
      | .ok decoded => .MonitorOutput decoded
      | .error _ => .MonitorOutput content
    else .MonitorOutput content
  else if is_hex_data content then
    match decode_hex content with
    | .ok decoded => .MonitorOutput decoded
    | .error _ => .MonitorOutput content
  else .MonitorOutput content

/-- Embedding of `GdbResponse::parse_content` (shucks/src/response.rs:217-414)
with the source's match arms in order.  The `content_str.contains(..)` guards
use `from_utf8(content).unwrap_or("")`, i.e. they can only fire on valid
UTF-8 content; the patterns are ASCII, so byte-level infix search agrees with
the source's string search. -/
def parse_content (raw : RawGdbResponse) (packet : Packet) :
    Except ParseError GdbResponse :=
  if raw.data = [] then .ok .Empty
  else if raw.data = [43] then .ok .Ack
  else if raw.data = [45] then .ok .Nack
  else if raw.data = ascii "OK" then .ok .Ok
  else if 3 ≤ raw.data.length ∧ raw.data.head? = some 69 then
    (if utf8_valid2 (raw.data.getD 1 0) (raw.data.getD 2 0) = false then .error .InvalidHex
     else
       match u8_from_hex2 (raw.data.getD 1 0) (raw.data.getD 2 0) with
       | none => .error .InvalidHex
       | some code => .ok (.Error code))
  else if 3 ≤ raw.data.length ∧ (raw.data.head? = some 83 ∨ raw.data.head? = some 84) then
    parse_stop_reply raw.data
  else if raw.data.head? = some 109 then
    (if looks_like_thread_info (raw.data.drop 1) then parse_thread_info raw.data false
     else .ok (.QXferData (raw.data.drop 1) false))
  else if raw.data.head? = some 108 then
    (if raw.data.length = 1 then .ok (.ThreadInfo [] false)
     else .ok (.QXferData (raw.data.drop 1) true))
  else if raw.data.length = 2 ∧ is_hex_data raw.data then .ok (.ThreadInfo [] false)
  else if utf8_valid raw.data ∧
      (List.IsInfix (ascii "PacketSize") raw.data ∨
        List.IsInfix (ascii "qRelocInsn") raw.data ∨
        List.IsInfix (ascii "swbreak") raw.data) then
    parse_supported_response raw.data
  else if packet.is_monitor_command then .ok (parse_monitor_output raw.data)
  else if is_hex_data_or_run_length raw.data then
    match decode_hex (decode_run_length raw.data) with
    | .error e => .error e
    | .ok data =>
        if packet.is_register_read then .ok (.RegisterData data)
        else if packet.is_memory_read then .ok (.MemoryData data)
        else if 128 ≤ data.length ∧ data.length % 4 = 0 then .ok (.RegisterData data)
        else .ok (.Raw data)
  else .ok (.Raw raw.data)

/-- Embedding of `GdbResponse::parse_packet`. -/
def parse_packet (raw : RawGdbResponse) (packet : Packet) :
    Except ParseError GdbResponse :=
  parse_content raw packet

/-! ### DWARF line stepper (shucks/src/addr2line_stepper.rs)

The DWARF line table is consumed through gimli/addr2line.  A line-program row
is modelled by its address, end-of-sequence flag, optional line number and
optional resolved path; the rows of all compilation units are flattened into
one list in iteration order.  Paths are component lists as produced by Rust's
`Path::components`, with the string "/" standing for the root component, so
`PathBuf` equality is list equality, `Path::ends_with` is the component
suffix test, and `is_absolute` checks for the leading root component. -/

structure Row where
  address : Nat
  end_sequence : Bool
  line : Option Nat
  path : Option (List String)
deriving DecidableEq

structure SourceLine where
  path : List String
  line : Nat
deriving DecidableEq

/-- Test for `Path::is_absolute`. -/
def path_is_absolute (p : List String) : Bool := p.head? = some "/"

/-- The matching rule of `find_addresses_for_line`
(shucks/src/addr2line_stepper.rs:182-184): absolute input paths must be equal
to the row path, relative ones must be a component suffix of it. -/
def path_matches (inp_file : List String) (resolved : List String) : Bool :=
  if path_is_absolute inp_file then decide (resolved = inp_file)
  else decide (List.IsSuffix inp_file resolved)

/-- Saturating 64-bit addition (`u64::saturating_add`). -/
def sat_add64 (a b : Nat) : Nat := min (a + b) (2 ^ 64 - 1)

/-- Row filter of `find_addresses_for_line`
(shucks/src/addr2line_stepper.rs:140-188): skip end-sequence rows, rows
without a line number, rows whose line differs from the target, rows without
a file, and rows whose resolved path does not match; collect the runtime
address `row.address().saturating_add(load_bias)` of the rest. -/
def collect_line_addresses (rows : List Row) (load_bias : Nat)
    (inp_file : List String) (target_line : Nat) : List Nat :=
  rows.filterMap fun r =>
    if r.end_sequence then none
    else
      match r.line with
      | none => none
      | some l =>
          if l ≠ target_line then none
          else
            match r.path with
            | none => none
            | some p =>
                if path_matches inp_file p then some (sat_add64 r.address load_bias)
                else none

/-- Embedding of `Vec::dedup`: remove consecutive duplicates. -/
def dedupAdj : List Nat → List Nat
  | [] => []
  | [a] => [a]
  | a :: b :: rest => if a = b then dedupAdj (b :: rest) else a :: dedupAdj (b :: rest)

/-- Embedding of `Addr2lineStepper::find_addresses_for_line`
(shucks/src/addr2line_stepper.rs:125-198): collect matching runtime
addresses, then `sort_unstable` and `dedup`.  On `Nat` any correct sort
produces the unique sorted permutation, so `sort_unstable` is modelled by
insertion sort. -/
def find_addresses_for_line (rows : List Row) (load_bias : Nat)
    (inp_file : List String) (target_line : Nat) : List Nat :=
  dedupAdj (List.insertionSort (· ≤ ·)
    (collect_line_addresses rows load_bias inp_file target_line))

/-- Modelled from the spec: `Addr2lineStepper::map_addr` delegates the lookup
to `addr2line::Context::find_location`, which is external library code.  Per
the spec (§4.5) `current_line` looks up the row with the greatest address at
most the file address.  Among several rows with the maximal address the scan
keeps the first. -/
def find_location : List Row → Nat → Option Row
  | [], _ => none
  | r :: rest, fa =>
      if r.address ≤ fa then
        match find_location rest fa with
        | none => some r
        | some b => if r.address < b.address then some b else some r
      else find_location rest fa

/-- Embedding of `Addr2lineStepper::current_line`
(shucks/src/addr2line_stepper.rs:112-121) over the modelled `find_location`:
subtract the load bias (`u64::saturating_sub`, which is `Nat` subtraction),
look up the location, and return path and line when both are present.  The
source-text field of `SourceLine` (a cached file read) is omitted. -/
def current_line (rows : List Row) (load_bias : Nat) (runtime_pc : Nat) :
    Option SourceLine :=
  match find_location rows (runtime_pc - load_bias) with
  | none => none
  | some r =>
      match r.path, r.line with
      | some p, some l => some ⟨p, l⟩
      | _, _ => none

/-! ### Statement vocabulary and concrete fixtures -/

/-- Change points of a signal that lie strictly after a time index, in order;
the head of this list is "the next change point strictly after the cursor"
in the spec's wording. -/
def changes_after (s : Signal) (idx : Nat) : List (Nat × SignalValue) :=
  s.changes.filter (fun d => decide (idx < d.1))

/-- Byte-sum of a packet content modulo 256: the checksum the spec and the
RSP standard prescribe. -/
def content_checksum (content : List Nat) : Nat := content.sum % 256

/-- Demonstration PC signal: value 1 at time 0, value 2 at times 5 and 9. -/
def demo_pc : Signal :=
  ⟨[(0, .binary [0, 0, 0, 1] 32), (5, .binary [0, 0, 0, 2] 32),
    (9, .binary [0, 0, 0, 2] 32)]⟩

/-- Engine at time 0 with a breakpoint on PC 2. -/
def demo_waver : Waver := ⟨demo_pc, [], ⟨0⟩, [2]⟩

/-- The same engine at time 5 (where the following change repeats the PC). -/
def demo_waver5 : Waver := ⟨demo_pc, [], ⟨5⟩, []⟩

/-- The same engine at the final change point. -/
def demo_waver9 : Waver := ⟨demo_pc, [], ⟨9⟩, []⟩

/-- Engine whose PC signal is 16 bits wide (two bytes). -/
def demo_waver16 : Waver := ⟨⟨[(0, .binary [18, 52] 16)]⟩, [], ⟨0⟩, []⟩

/-- Engine with a single breakpoint at address 5. -/
def demo_waver_bp : Waver := ⟨demo_pc, [], ⟨0⟩, [5]⟩

/-- Two line-table rows of a compilation unit of `hello_test.c`. -/
def demo_rows : List Row :=
  [⟨16, false, some 12, some ["/", "src", "hello_test.c"]⟩,
   ⟨20, false, some 13, some ["/", "src", "hello_test.c"]⟩]

/-! ## Lemmas about the engine's offset lookups -/

lemma floorPos_none_all_gt {cs : List (Nat × SignalValue)} {idx : Nat}
    (hp : List.Pairwise (fun a b => a.1 < b.1) cs)
    (h : floorPos cs idx = none) : ∀ d ∈ cs, idx < d.1 := by
  intro d hd
  cases cs with
  | nil => simp at hd
  | cons c rest =>
    have hlt : idx < c.1 := by
      by_contra hge
      unfold floorPos at h
      rw [if_neg hge] at h
      cases hfr : floorPos rest idx <;> simp [hfr] at h
    rcases List.mem_cons.mp hd with rfl | hd
    · exact hlt
    · exact lt_trans hlt ((List.pairwise_cons.mp hp).1 d hd)

lemma floorPos_drop {cs : List (Nat × SignalValue)} {idx : Nat} {p : Nat}
    (hp : List.Pairwise (fun a b => a.1 < b.1) cs)
    (h : floorPos cs idx = some p) :
    cs.drop (p + 1) = cs.filter (fun d => decide (idx < d.1)) := by
  induction cs generalizing p with
  | nil => simp [floorPos] at h
  | cons c rest ih =>
    unfold floorPos at h
    by_cases hlt : idx < c.1
    · rw [if_pos hlt] at h
      exact absurd h (by simp)
    · rw [if_neg hlt] at h
      have hfc : ¬((fun d : Nat × SignalValue => decide (idx < d.1)) c = true) := by
        simp [hlt]
      have hfilter : List.filter (fun d => decide (idx < d.1)) (c :: rest) =
          List.filter (fun d => decide (idx < d.1)) rest := by
        simp [List.filter_cons, hlt]
      cases hfr : floorPos rest idx with
      | some q =>
        rw [hfr] at h
        obtain rfl : q + 1 = p := by simpa using h
        rw [List.drop_succ_cons, hfilter]
        exact ih hp.of_cons hfr
      | none =>
        rw [hfr] at h
        obtain rfl : 0 = p := by simpa using h
        rw [List.drop_succ_cons, hfilter, List.drop_zero]
        refine (List.filter_eq_self.mpr fun d hd => ?_).symm
        simpa using floorPos_none_all_gt hp.of_cons hfr d hd

lemma floorPos_at_change {cs : List (Nat × SignalValue)} {q : Nat}
    {c : Nat × SignalValue}
    (hp : List.Pairwise (fun a b => a.1 < b.1) cs)
    (h : cs[q]? = some c) : floorPos cs c.1 = some q := by
  induction cs generalizing q with
  | nil => simp at h
  | cons c0 rest ih =>
    cases q with
    | zero =>
      obtain rfl : c0 = c := by simpa using h
      unfold floorPos
      rw [if_neg (lt_irrefl _)]
      cases rest with
      | nil => simp [floorPos]
      | cons d rest' =>
        have hd : c0.1 < d.1 := (List.pairwise_cons.mp hp).1 d (by simp)
        unfold floorPos
        rw [if_pos hd]
    | succ q =>
      have h' : rest[q]? = some c := by simpa using h
      have hgt : c0.1 < c.1 :=
        (List.pairwise_cons.mp hp).1 c (List.getElem?_mem h')
      unfold floorPos
      rw [if_neg (by omega), ih hp.of_cons h']

lemma get_current_pc?_unpack {w : Waver} {prev : Nat}
    (hprev : get_current_pc? w = some prev) :
    ∃ p c, floorPos w.pc.changes w.cursor.time_idx = some p ∧
      w.pc.changes[p]? = some c ∧ try_from_signal_u32 c.2 = some prev := by
  unfold get_current_pc? try_get_val at hprev
  cases hfp : floorPos w.pc.changes w.cursor.time_idx with
  | none => rw [hfp] at hprev; simp at hprev
  | some p =>
    rw [hfp] at hprev
    simp only [Option.some_bind] at hprev
    cases hce : w.pc.changes[p]? with
    | none => rw [hce] at hprev; simp at hprev
    | some c =>
      rw [hce] at hprev
      exact ⟨p, c, rfl, hce, by simpa using hprev⟩

lemma next_pc_char (w : Waver)
    (hsorted : List.Pairwise (fun a b => a.1 < b.1) w.pc.changes)
    {prev : Nat} (hprev : get_current_pc? w = some prev) :
    (∀ t v, (changes_after w.pc w.cursor.time_idx).head? = some (t, v) →
        next_pc w = some
          ((if try_from_signal_u32 v = some prev then none else try_from_signal_u32 v),
            set_time w t) ∧ w.cursor.time_idx < t)
    ∧ (changes_after w.pc w.cursor.time_idx = [] → next_pc w = some (none, w)) := by
  obtain ⟨p, c, hfp, hce, hconv⟩ := get_current_pc?_unpack hprev
  have hdrop := floorPos_drop hsorted hfp
  constructor
  · intro t v hhead
    have hnext : w.pc.changes[p + 1]? = some (t, v) := by
      have h0 : (w.pc.changes.drop (p + 1))[0]? = some (t, v) := by
        rw [← List.head?_eq_getElem?, hdrop]
        exact hhead
      rw [List.getElem?_drop] at h0
      simpa using h0
    have htgt : w.cursor.time_idx < t := by
      have hmem : (t, v) ∈ changes_after w.pc w.cursor.time_idx :=
        List.mem_of_mem_head? hhead
      simpa using List.of_mem_filter hmem
    refine ⟨?_, htgt⟩
    unfold next_pc try_get_next_val
    rw [hprev, hfp]
    simp only [Option.some_bind, hnext]
    split <;> rfl
  · intro hempty
    have hnone : w.pc.changes[p + 1]? = none := by
      have hd : w.pc.changes.drop (p + 1) = [] := by
        rw [hdrop]; exact hempty
      exact List.getElem?_eq_none (List.drop_eq_nil_iff.mp hd)
    unfold next_pc try_get_next_val
    rw [hprev, hfp]
    simp only [Option.some_bind, hnone]

lemma next_pc_frame (w : Waver) {npc : Option Nat} {w' : Waver}
    (h : next_pc w = some (npc, w')) :
    w'.breakpoints = w.breakpoints ∧ w'.pc = w.pc ∧ w'.gprs = w.gprs := by
  unfold next_pc at h
  cases hc : get_current_pc? w with
  | none => rw [hc] at h; simp at h
  | some prev =>
    rw [hc] at h
    cases hn : try_get_next_val w.pc w.cursor.time_idx with
    | none =>
      rw [hn] at h
      obtain ⟨-, rfl⟩ : none = npc ∧ w = w' := by simpa using h
      exact ⟨rfl, rfl, rfl⟩
    | some sv =>
      rw [hn] at h
      simp only at h
      split at h <;>
        · obtain ⟨-, rfl⟩ : _ ∧ set_time w sv.2 = w' := by simpa using h
          exact ⟨rfl, rfl, rfl⟩

lemma next_pc_some_arrival (w : Waver)
    (hsorted : List.Pairwise (fun a b => a.1 < b.1) w.pc.changes)
    {pc : Nat} {w' : Waver} (h : next_pc w = some (some pc, w')) :
    get_current_pc? w' = some pc := by
  unfold next_pc at h
  cases hc : get_current_pc? w with
  | none => rw [hc] at h; simp at h
  | some prev =>
    rw [hc] at h
    cases hn : try_get_next_val w.pc w.cursor.time_idx with
    | none => rw [hn] at h; simp at h
    | some sv =>
      obtain ⟨sig, idx⟩ := sv
      rw [hn] at h
      simp only at h
      by_cases hif : try_from_signal_u32 sig = some prev
      · rw [if_pos hif] at h; simp at h
      · rw [if_neg hif] at h
        obtain ⟨h1, rfl⟩ : try_from_signal_u32 sig = some pc ∧ set_time w idx = w' := by
          simpa [eq_comm] using h
        obtain ⟨p, c, hfp, hce, hsig, hidx⟩ :
            ∃ p c, floorPos w.pc.changes w.cursor.time_idx = some p ∧
              w.pc.changes[p + 1]? = some c ∧ c.2 = sig ∧ c.1 = idx := by
          unfold try_get_next_val at hn
          cases hfp : floorPos w.pc.changes w.cursor.time_idx with
          | none => rw [hfp] at hn; simp at hn
          | some p =>
            rw [hfp] at hn
            simp only [Option.some_bind] at hn
            cases hce : w.pc.changes[p + 1]? with
            | none => rw [hce] at hn; simp at hn
            | some c =>
              rw [hce] at hn
              simp only [Option.some.injEq, Prod.mk.injEq] at hn
              exact ⟨p, c, rfl, hce, hn.1, hn.2⟩
        have hfloor : floorPos w.pc.changes c.1 = some (p + 1) :=
          floorPos_at_change hsorted hce
        unfold get_current_pc? try_get_val set_time
        simp only
        rw [← hidx] at *
        rw [hfloor]
        simp [hce, hsig, h1]

/-! ## Claim theorems for the engine -/

/-- C1: whenever the pc signal has a change point strictly after the cursor,
`next_pc` advances the cursor to the earliest such change point and returns
`Some` of the 32-bit value there when it differs from the PC before the
call, `None` when it equals it; and when the chain of change points is
exhausted it returns `None`. -/
theorem C1_next_pc_next_distinct (w : Waver)
    (hsorted : List.Pairwise (fun a b => a.1 < b.1) w.pc.changes)
    (prev : Nat) (hprev : get_current_pc? w = some prev) :
    (∀ t v, (changes_after w.pc w.cursor.time_idx).head? = some (t, v) →
        ∀ n, try_from_signal_u32 v = some n →
          next_pc w = some ((if n = prev then none else some n), set_time w t))
    ∧ (changes_after w.pc w.cursor.time_idx = [] → next_pc w = some (none, w)) := by
  obtain ⟨h1, h2⟩ := next_pc_char w hsorted hprev
  refine ⟨?_, h2⟩
  intro t v hhead n hn
  have := (h1 t v hhead).1
  rw [hn] at this
  by_cases hnp : n = prev
  · simpa [hnp] using this
  · have hne : ¬(some n = some prev) := by simpa using hnp
    rw [if_neg hne] at this
    rw [if_neg hnp]
    exact this

theorem C1_witness :
    (List.Pairwise (fun a b => a.1 < b.1) demo_waver.pc.changes
      ∧ get_current_pc? demo_waver = some 1)
    ∧ next_pc demo_waver = some (some 2, set_time demo_waver 5) := by
  refine ⟨⟨by decide, by decide⟩, ?_⟩
  have h := (C1_next_pc_next_distinct demo_waver (by decide) 1 (by decide)).1
    5 (.binary [0, 0, 0, 2] 32) (by decide) 2 (by decide)
  simpa using h

/-- C2: `step` reports `Halted` exactly when `next_pc` returns `None`;
otherwise, with `pc` the arrival PC returned by `next_pc` (which is the
current PC of the advanced state, never the PC before the step), `step`
reports `Break` exactly when `pc` is in the breakpoints list and no event
otherwise. -/
theorem C2_step_stop_events (w : Waver)
    (hsorted : List.Pairwise (fun a b => a.1 < b.1) w.pc.changes) :
    ∀ npc w', next_pc w = some (npc, w') →
      (npc = none → ∀ pcv, get_current_pc? w' = some pcv →
        step w = some (some Event.Halted, w'))
      ∧ (∀ pc, npc = some pc →
          step w = some ((if pc ∈ w.breakpoints then some Event.Break else none), w')
          ∧ get_current_pc? w' = some pc) := by
  intro npc w' h
  constructor
  · rintro rfl pcv hpcv
    unfold step
    rw [h]
    simp [hpcv]
  · rintro pc rfl
    have harr := next_pc_some_arrival w hsorted h
    have hbp := (next_pc_frame w h).1
    refine ⟨?_, harr⟩
    unfold step
    rw [h]
    simp [hbp]

theorem C2_witness :
    (List.Pairwise (fun a b => a.1 < b.1) demo_waver.pc.changes
      ∧ next_pc demo_waver = some (some 2, set_time demo_waver 5))
    ∧ step demo_waver = some (some Event.Break, set_time demo_waver 5) := by
  refine ⟨⟨by decide, by decide⟩, ?_⟩
  have h := ((C2_step_stop_events demo_waver (by decide)) (some 2)
    (set_time demo_waver 5) (by decide)).2 2 rfl
  simpa using h.1

/-- C10: when `next_pc` returns `None` because the value at the next change
point equals the previous PC, the cursor has nevertheless been advanced to
that change point (strictly past its old position), and the advanced index is
what the `monitor time_idx` command prints; the cursor is left unchanged only
when no change point follows. -/
theorem C10_no_progress_still_advances (w : Waver)
    (hsorted : List.Pairwise (fun a b => a.1 < b.1) w.pc.changes)
    (prev : Nat) (hprev : get_current_pc? w = some prev) :
    (∀ t v, (changes_after w.pc w.cursor.time_idx).head? = some (t, v) →
        try_from_signal_u32 v = some prev →
          next_pc w = some (none, set_time w t) ∧ w.cursor.time_idx < t)
    ∧ (changes_after w.pc w.cursor.time_idx = [] → next_pc w = some (none, w))
    ∧ (∀ t, handle_monitor_cmd (set_time w t) "time_idx" = toString t ++ "\n") := by
  obtain ⟨h1, h2⟩ := next_pc_char w hsorted hprev
  refine ⟨?_, h2, ?_⟩
  · intro t v hhead hv
    obtain ⟨heq, hlt⟩ := h1 t v hhead
    rw [hv, if_pos rfl] at heq
    exact ⟨heq, hlt⟩
  · intro t
    simp [handle_monitor_cmd, set_time]

theorem C10_witness :
    (List.Pairwise (fun a b => a.1 < b.1) demo_waver5.pc.changes
      ∧ get_current_pc? demo_waver5 = some 2)
    ∧ next_pc demo_waver5 = some (none, set_time demo_waver5 9)
    ∧ demo_waver5.cursor.time_idx < 9
    ∧ next_pc demo_waver9 = some (none, demo_waver9) := by
  refine ⟨⟨by decide, by decide⟩, ?_, ?_, ?_⟩
  · exact ((C10_no_progress_still_advances demo_waver5 (by decide) 2 (by decide)).1
      9 (.binary [0, 0, 0, 2] 32) (by decide) (by decide)).1
  · exact ((C10_no_progress_still_advances demo_waver5 (by decide) 2 (by decide)).1
      9 (.binary [0, 0, 0, 2] 32) (by decide) (by decide)).2
  · exact (C10_no_progress_still_advances demo_waver9 (by decide) 2 (by decide)).2.1
      (by decide)

/-! ## Claim theorems for construction-time validation -/

/-- C7: the claim says a signal map lacking `pc` or any `x0..x31` makes
construction return an error carrying the list of missing names.  On the
code, `validate_get_signals` computes the missing-name list but discards it
and reports the map as valid, and `create_loaded_waves` then dies in an
`expect` panic naming only `pc`, instead of returning an error: evaluated
here at the concrete failing input of an empty signal map. -/
theorem C7_missing_signals_discarded :
    (validate_get_signals (some [])).signals = some []
    ∧ missing_signals [] = "pc" :: (List.range 32).map (fun i => "x" ++ toString i)
    ∧ (missing_signals []).length = 33
    ∧ create_loaded_waves (some []) = .panicked "No signal provided named pc!"
    ∧ ∀ msg, create_loaded_waves (some []) ≠ .err msg := by
  refine ⟨rfl, by decide, by decide, by decide, ?_⟩
  intro msg h
  rw [show create_loaded_waves (some []) =
    .panicked "No signal provided named pc!" from by decide] at h
  exact LoadOutcome.noConfusion h

/-! ## Claim theorems for the breakpoint list -/

lemma findIdx?_eq_first {l1 l2 : List Nat} {a : Nat} (h : a ∉ l1) :
    (l1 ++ a :: l2).findIdx? (fun x => x == a) = some l1.length := by
  induction l1 with
  | nil => simp [List.findIdx?_cons]
  | cons x l1 ih =>
    have hx : (x == a) = false := by
      simp only [List.mem_cons] at h
      exact beq_eq_false_iff_ne.mpr fun hxa => h (Or.inl hxa.symm)
    have hrest : a ∉ l1 := fun hm => h (List.mem_cons.mpr (Or.inr hm))
    simp [List.findIdx?_cons, hx, List.findIdx?_succ, ih hrest]

lemma eraseIdx_append_length (l1 l2 : List Nat) (a : Nat) :
    (l1 ++ a :: l2).eraseIdx l1.length = l1 ++ l2 := by
  induction l1 with
  | nil => rfl
  | cons x l1 ih => simpa using ih

/-- C8 counterexample: adding a breakpoint address that is already present
does change the list — `push` is unconditional, so the list gains a
duplicate, refuting the claimed idempotence and the claimed absence of
duplicates. -/
theorem C8_counterexample :
    (add_sw_breakpoint demo_waver_bp 5).1.breakpoints = [5, 5]
    ∧ (add_sw_breakpoint demo_waver_bp 5).1.breakpoints ≠ demo_waver_bp.breakpoints
    ∧ ¬(add_sw_breakpoint demo_waver_bp 5).1.breakpoints.Nodup := by
  refine ⟨by decide, by decide, by decide⟩

/-- C8 (amended): adding a software breakpoint always appends the address to
the end of the list, even when it is already present (so duplicates can
occur); removing deletes exactly the entry at the first position whose value
equals the address and returns `true`, and returns `false` leaving the state
unchanged when the address is absent. -/
theorem C8_add_appends_remove_first (w : Waver) (addr : Nat) :
    ((add_sw_breakpoint w addr).1.breakpoints = w.breakpoints ++ [addr]
      ∧ (add_sw_breakpoint w addr).2 = true)
    ∧ (∀ l1 l2, w.breakpoints = l1 ++ addr :: l2 → addr ∉ l1 →
        (remove_sw_breakpoint w addr).1.breakpoints = l1 ++ l2
        ∧ (remove_sw_breakpoint w addr).2 = true)
    ∧ (addr ∉ w.breakpoints → remove_sw_breakpoint w addr = (w, false)) := by
  refine ⟨⟨rfl, rfl⟩, ?_, ?_⟩
  · intro l1 l2 hsplit hnotin
    have hf : w.breakpoints.findIdx? (fun x => x == addr) = some l1.length := by
      rw [hsplit]; exact findIdx?_eq_first hnotin
    unfold remove_sw_breakpoint
    rw [hf]
    refine ⟨?_, rfl⟩
    simp only
    rw [hsplit]
    exact eraseIdx_append_length l1 l2 addr
  · intro habs
    have hf : w.breakpoints.findIdx? (fun x => x == addr) = none := by
      rw [List.findIdx?_eq_none_iff]
      intro x hx
      simp only [beq_eq_false_iff_ne, ne_eq]
      exact fun hxa => habs (hxa ▸ hx)
    unfold remove_sw_breakpoint
    rw [hf]

theorem C8_witness :
    (demo_waver_bp.breakpoints = [] ++ 5 :: [] ∧ 5 ∉ ([] : List Nat)
      ∧ 7 ∉ demo_waver_bp.breakpoints)
    ∧ (add_sw_breakpoint demo_waver_bp 7).1.breakpoints = [5, 7]
    ∧ (remove_sw_breakpoint demo_waver_bp 5).1.breakpoints = []
    ∧ remove_sw_breakpoint demo_waver_bp 7 = (demo_waver_bp, false) := by
  refine ⟨⟨by decide, by decide, by decide⟩, ?_, ?_, ?_⟩
  · exact (C8_add_appends_remove_first demo_waver_bp 7).1.1
  · exact ((C8_add_appends_remove_first demo_waver_bp 5).2.1 [] [] (by decide)
      (by decide)).1
  · exact (C8_add_appends_remove_first demo_waver_bp 7).2.2 (by decide)

/-! ## Claim theorems for signal-value conversion -/

/-- C9 counterexample: a 16-bit (two-byte) signal value does not yield its
big-endian integer — the conversion fails (and `get_current_pc` panics),
because `val.try_into() : [u8; 4]` needs exactly four bytes; and a 40-bit
value is rejected, not truncated. -/
theorem C9_counterexample :
    get_current_pc? demo_waver16 = none
    ∧ try_from_signal_u32 (.binary [18, 52] 16) = none
    ∧ try_from_signal_u32 (.binary [0, 0, 0, 0, 1] 40) = none := by
  refine ⟨by decide, by decide, by decide⟩

/-- C9 (amended): `current_pc`/`current_gpr` interpret the signal bytes
big-endian, but the conversion succeeds exactly when the value is binary with
declared width at most 32 bits and a byte payload of exactly four bytes;
wider values (and non-4-byte payloads) are rejected — `try_from_signal`
returns `None` and `from_signal` panics — rather than truncated. -/
theorem C9_big_endian_exact_four_bytes :
    (∀ bytes bits, (try_from_signal_u32 (.binary bytes bits)).isSome ↔
        (bits ≤ 32 ∧ bytes.length = 4))
    ∧ (∀ b0 b1 b2 b3 bits, bits ≤ 32 →
        try_from_signal_u32 (.binary [b0, b1, b2, b3] bits) =
          some (((b0 * 256 + b1) * 256 + b2) * 256 + b3))
    ∧ (∀ w bytes bits, try_get_val w.pc w.cursor.time_idx = some (.binary bytes bits) →
        get_current_pc? w = try_from_signal_u32 (.binary bytes bits))
    ∧ (∀ w i s bytes bits, w.gprs[i]? = some s →
        try_get_val s w.cursor.time_idx = some (.binary bytes bits) →
        get_current_gpr? w i = try_from_signal_u32 (.binary bytes bits)) := by
  refine ⟨?_, ?_, ?_, ?_⟩
  · intro bytes bits
    by_cases h1 : bits ≤ 32 <;> by_cases h2 : bytes.length = 4 <;>
      simp [try_from_signal_u32, h1, h2]
  · intro b0 b1 b2 b3 bits h
    simp [try_from_signal_u32, from_be_bytes, h]
  · intro w bytes bits h
    simp [get_current_pc?, h]
  · intro w i s bytes bits h1 h2
    simp [get_current_gpr?, h1, h2]

theorem C9_witness :
    ((8 : Nat) ≤ 32 ∧ (32 : Nat) ≤ 32
      ∧ try_get_val demo_waver16.pc demo_waver16.cursor.time_idx =
          some (.binary [18, 52] 16))
    ∧ try_from_signal_u32 (.binary [0, 0, 1, 0] 32) = some 256
    ∧ ((try_from_signal_u32 (.binary [18, 52] 16)).isSome ↔
        ((16 : Nat) ≤ 32 ∧ ([18, 52] : List Nat).length = 4))
    ∧ get_current_pc? demo_waver16 = try_from_signal_u32 (.binary [18, 52] 16) := by
  refine ⟨⟨by decide, by decide, by decide⟩, ?_, ?_, ?_⟩
  · have h := C9_big_endian_exact_four_bytes.2.1 0 0 1 0 32 (by decide)
    simpa using h
  · exact C9_big_endian_exact_four_bytes.1 [18, 52] 16
  · exact C9_big_endian_exact_four_bytes.2.2.1 demo_waver16 [18, 52] 16 (by decide)

/-! ## Claim theorems for client packet serialization -/

/-- C3: the claim says every serialized command packet is
`$<content>#<hexcs>` with a two-hex-digit checksum equal to the byte sum of
the content alone.  On the code this fails: `PacketCursor::write` adds the
leading `$` (0x24) to the checksum sum, and `finish` formats the sum without
zero padding.  Evaluated here: the `g` command serializes to `$g#8b` even
though the content sum is 0x67, and the `m299,9f` read serializes with the
single-digit checksum `0`. -/
theorem C3_checksum_includes_dollar_and_unpadded :
    Base.LowerG.to_cmd = ascii "$g#8b"
    ∧ content_checksum (ascii "g") = 0x67
    ∧ ascii "$g#8b" ≠ ascii "$g#67"
    ∧ (Base.LowerM 665 159).to_cmd = ascii "$m299,9f#0"
    ∧ content_checksum (ascii "m299,9f") = 0xdc := by
  refine ⟨by decide, by decide, by decide, by decide, by decide⟩

/-! ## Claim theorems for client packet extraction -/

lemma list_position_no_hash {content : List Nat} (rest : List Nat)
    (h : 35 ∉ content) :
    list_position (fun x => x == 35) (content ++ 35 :: rest) = some content.length := by
  induction content with
  | nil => simp [list_position]
  | cons x l ih =>
    simp only [List.mem_cons, not_or] at h
    have hx : (x == 35) = false := beq_eq_false_iff_ne.mpr fun hxa => h.1 hxa.symm
    simp [list_position, hx, ih h.2]

lemma hex_digit_val_bounds {c v : Nat} (h : hex_digit_val c = some v) :
    c < 128 ∧ c ≠ 43 ∧ v < 16 := by
  unfold hex_digit_val at h
  split_ifs at h with h1 h2 h3 <;> simp only [Option.some.injEq] at h <;> omega

lemma foldl_mod256 (l : List Nat) :
    ∀ a : Nat, l.foldl (fun acc x => (acc + x) % 256) (a % 256) = (a + l.sum) % 256 := by
  induction l with
  | nil => intro a; simp
  | cons x l ih =>
    intro a
    have hstep : (a % 256 + x) % 256 = (a + x) % 256 := by omega
    calc (x :: l).foldl (fun acc x => (acc + x) % 256) (a % 256)
        = l.foldl (fun acc x => (acc + x) % 256) ((a + x) % 256) := by
          simp [List.foldl_cons, hstep]
      _ = (a + x + l.sum) % 256 := ih (a + x)
      _ = (a + (x :: l).sum) % 256 := by simp [List.sum_cons]; ring_nf

/-- C4: a received buffer that starts with `$` and contains `#` followed by
two hex checksum digits is extracted to exactly the enclosed content when the
content byte sum modulo 256 equals the checksum field, and is rejected with
`ParseError::InvalidChecksum` when it is not; a single leading `+` or `-`
byte is extracted as a complete ack/nack packet. -/
theorem C4_find_packet_data_checksum
    (content rest : List Nat) (c1 c2 v1 v2 : Nat)
    (hnohash : 35 ∉ content)
    (h1 : hex_digit_val c1 = some v1) (h2 : hex_digit_val c2 = some v2) :
    (find_packet_data (36 :: (content ++ 35 :: c1 :: c2 :: rest)) =
      if content_checksum content = 16 * v1 + v2
      then .ok ⟨content, 4⟩ else .error .InvalidChecksum)
    ∧ (∀ l, find_packet_data (43 :: l) = .ok ⟨[43], 0⟩)
    ∧ (∀ l, find_packet_data (45 :: l) = .ok ⟨[45], 0⟩) := by
  refine ⟨?_, fun l => by simp [find_packet_data],
    fun l => by simp [find_packet_data]⟩
  obtain ⟨hc1lt, hc1ne, hv1lt⟩ := hex_digit_val_bounds h1
  obtain ⟨hc2lt, hc2ne, hv2lt⟩ := hex_digit_val_bounds h2
  have hlen : (36 :: (content ++ 35 :: c1 :: c2 :: rest)).length
      = content.length + rest.length + 4 := by
    simp only [List.length_cons, List.length_append]
    omega
  have hpos : list_position (fun x => x == 35)
      (36 :: (content ++ 35 :: c1 :: c2 :: rest)) = some (content.length + 1) := by
    have h36 : ((36 : Nat) == 35) = false := by decide
    simp [list_position, h36, list_position_no_hash (c1 :: c2 :: rest) hnohash]
  have htake : ((36 :: (content ++ 35 :: c1 :: c2 :: rest)).take
      (content.length + 1)).drop 1 = content := by
    rw [List.take_succ_cons, List.drop_succ_cons, List.drop_zero, List.take_left]
  have hgd1 : (36 :: (content ++ 35 :: c1 :: c2 :: rest)).getD
      (content.length + 1 + 1) 0 = c1 := by
    rw [List.getD_eq_getElem?_getD, List.getElem?_cons_succ,
      List.getElem?_append_right (by omega)]
    simp
  have hgd2 : (36 :: (content ++ 35 :: c1 :: c2 :: rest)).getD
      (content.length + 1 + 2) 0 = c2 := by
    rw [List.getD_eq_getElem?_getD, List.getElem?_cons_succ,
      List.getElem?_append_right (by omega)]
    have h3 : content.length + 2 - content.length = 2 := by omega
    rw [h3]
    simp
  have hutf : utf8_valid2 c1 c2 = true := by
    unfold utf8_valid2
    simp only [decide_eq_true_eq]
    omega
  have hparse : u8_from_hex2 c1 c2 = some (16 * v1 + v2) := by
    unfold u8_from_hex2
    rw [if_neg hc1ne, h1, h2]
  have hsum : content.foldl (fun acc x => (acc + x) % 256) 0 =
      content_checksum content := by
    have := foldl_mod256 content 0
    simpa [content_checksum] using this
  simp only [find_packet_data]
  rw [if_neg (by decide)]
  rw [if_neg (by rw [hlen]; omega)]
  split
  · rename_i heq
    rw [hpos] at heq
    exact absurd heq (by simp)
  · rename_i hash_pos heq
    rw [hpos] at heq
    obtain rfl : content.length + 1 = hash_pos := by simpa using heq
    rw [if_neg (by rw [hlen]; omega)]
    rw [hgd1, hgd2]
    rw [if_neg (by simp [hutf])]
    split
    · rename_i heq2
      rw [hparse] at heq2
      exact absurd heq2 (by simp)
    · rename_i expected heq2
      rw [hparse] at heq2
      obtain rfl : 16 * v1 + v2 = expected := by simpa using heq2
      rw [htake, hsum]
      by_cases hck : content_checksum content = 16 * v1 + v2
      · rw [if_neg (by omega), if_pos hck]
      · rw [if_pos (by omega), if_neg hck]

theorem C4_witness :
    ((35 : Nat) ∉ ([79, 75] : List Nat)
      ∧ hex_digit_val 57 = some 9 ∧ hex_digit_val 97 = some 10)
    ∧ find_packet_data (ascii "$OK#9a") = .ok ⟨ascii "OK", 4⟩
    ∧ find_packet_data (ascii "$OK#00") = .error .InvalidChecksum
    ∧ find_packet_data (ascii "+") = .ok ⟨ascii "+", 0⟩ := by
  refine ⟨⟨by decide, by decide, by decide⟩, ?_, ?_, ?_⟩
  · have h := (C4_find_packet_data_checksum [79, 75] [] 57 97 9 10
      (by decide) (by decide) (by decide)).1
    rw [if_pos (by decide)] at h
    exact h
  · have h := (C4_find_packet_data_checksum [79, 75] [] 48 48 0 0
      (by decide) (by decide) (by decide)).1
    rw [if_neg (by decide)] at h
    exact h
  · exact (C4_find_packet_data_checksum [] [] 48 48 0 0
      (by decide) (by decide) (by decide)).2.1 []

/-! ## Claim theorems for run-length decoding -/

lemma parse_stop_reply_shape (c : List Nat) (r : GdbResponse)
    (h : parse_stop_reply c = .ok r) : ∃ s th re, r = .StopReply s th re := by
  simp only [parse_stop_reply] at h
  split at h
  · simp at h
  · split at h
    · simp at h
    · split at h
      · simp at h
      · exact ⟨_, _, _, by simpa using h.symm⟩

lemma parse_thread_info_shape (c : List Nat) (b : Bool) (r : GdbResponse)
    (h : parse_thread_info c b = .ok r) : ∃ th md, r = .ThreadInfo th md := by
  simp only [parse_thread_info] at h
  split at h
  · simp at h
  · split at h
    · simp at h
    · exact ⟨_, _, by simpa using h.symm⟩

lemma parse_monitor_output_shape (c : List Nat) :
    ∃ o, parse_monitor_output c = .MonitorOutput o := by
  simp only [parse_monitor_output]
  repeat' split
  all_goals exact ⟨_, rfl⟩

/-- Classification helper: `RegisterData` responses are produced only in the
hex branch of `parse_content`, whose payload is
`decode_hex (decode_run_length content)`. -/
lemma parse_content_register_origin (raw : RawGdbResponse) (pkt : Packet)
    (d : List Nat) (h : parse_content raw pkt = .ok (.RegisterData d)) :
    decode_hex (decode_run_length raw.data) = .ok d := by
  rw [parse_content.eq_def] at h
  by_cases h1 : raw.data = []
  · rw [if_pos h1] at h; simp at h
  rw [if_neg h1] at h
  by_cases h2 : raw.data = [43]
  · rw [if_pos h2] at h; simp at h
  rw [if_neg h2] at h
  by_cases h3 : raw.data = [45]
  · rw [if_pos h3] at h; simp at h
  rw [if_neg h3] at h
  by_cases h4 : raw.data = ascii "OK"
  · rw [if_pos h4] at h; simp at h
  rw [if_neg h4] at h
  by_cases h5 : 3 ≤ raw.data.length ∧ raw.data.head? = some 69
  · rw [if_pos h5] at h
    by_cases h5a : utf8_valid2 (raw.data.getD 1 0) (raw.data.getD 2 0) = false
    · rw [if_pos h5a] at h; simp at h
    · rw [if_neg h5a] at h
      cases h5b : u8_from_hex2 (raw.data.getD 1 0) (raw.data.getD 2 0) with
      | none => rw [h5b] at h; simp at h
      | some code => rw [h5b] at h; simp at h
  rw [if_neg h5] at h
  by_cases h6 : 3 ≤ raw.data.length ∧ (raw.data.head? = some 83 ∨ raw.data.head? = some 84)
  · rw [if_pos h6] at h
    obtain ⟨s, th, re, hEq⟩ := parse_stop_reply_shape _ _ h
    simp at hEq
  rw [if_neg h6] at h
  by_cases h7 : raw.data.head? = some 109
  · rw [if_pos h7] at h
    by_cases h7a : looks_like_thread_info (raw.data.drop 1) = true
    · rw [if_pos h7a] at h
      obtain ⟨th, md, hEq⟩ := parse_thread_info_shape _ _ _ h
      simp at hEq
    · rw [if_neg h7a] at h; simp at h
  rw [if_neg h7] at h
  by_cases h8 : raw.data.head? = some 108
  · rw [if_pos h8] at h
    by_cases h8a : raw.data.length = 1
    · rw [if_pos h8a] at h; simp at h
    · rw [if_neg h8a] at h; simp at h
  rw [if_neg h8] at h
  by_cases h9 : raw.data.length = 2 ∧ is_hex_data raw.data = true
  · rw [if_pos h9] at h; simp at h
  rw [if_neg h9] at h
  by_cases h10 : utf8_valid raw.data = true ∧
      (List.IsInfix (ascii "PacketSize") raw.data ∨
        List.IsInfix (ascii "qRelocInsn") raw.data ∨
        List.IsInfix (ascii "swbreak") raw.data)
  · rw [if_pos h10] at h; simp [parse_supported_response] at h
  rw [if_neg h10] at h
  by_cases h11 : pkt.is_monitor_command = true
  · rw [if_pos h11] at h
    obtain ⟨o, hEq⟩ := parse_monitor_output_shape raw.data
    rw [hEq] at h
    simp at h
  rw [if_neg h11] at h
  by_cases h12 : is_hex_data_or_run_length raw.data = true
  · rw [if_pos h12] at h
    split at h
    · simp at h
    · rename_i data heq
      split at h
      · obtain rfl : data = d := by simpa using h
        exact heq
      split at h
      · simp at h
      split at h
      · obtain rfl : data = d := by simpa using h
        exact heq
      · simp at h
  · rw [if_neg h12] at h; simp at h

/-- Classification helper: `MemoryData` responses are produced only in the
hex branch of `parse_content`, whose payload is
`decode_hex (decode_run_length content)`. -/
lemma parse_content_memory_origin (raw : RawGdbResponse) (pkt : Packet)
    (d : List Nat) (h : parse_content raw pkt = .ok (.MemoryData d)) :
    decode_hex (decode_run_length raw.data) = .ok d := by
  rw [parse_content.eq_def] at h
  by_cases h1 : raw.data = []
  · rw [if_pos h1] at h; simp at h
  rw [if_neg h1] at h
  by_cases h2 : raw.data = [43]
  · rw [if_pos h2] at h; simp at h
  rw [if_neg h2] at h
  by_cases h3 : raw.data = [45]
  · rw [if_pos h3] at h; simp at h
  rw [if_neg h3] at h
  by_cases h4 : raw.data = ascii "OK"
  · rw [if_pos h4] at h; simp at h
  rw [if_neg h4] at h
  by_cases h5 : 3 ≤ raw.data.length ∧ raw.data.head? = some 69
  · rw [if_pos h5] at h
    by_cases h5a : utf8_valid2 (raw.data.getD 1 0) (raw.data.getD 2 0) = false
    · rw [if_pos h5a] at h; simp at h
    · rw [if_neg h5a] at h
      cases h5b : u8_from_hex2 (raw.data.getD 1 0) (raw.data.getD 2 0) with
      | none => rw [h5b] at h; simp at h
      | some code => rw [h5b] at h; simp at h
  rw [if_neg h5] at h
  by_cases h6 : 3 ≤ raw.data.length ∧ (raw.data.head? = some 83 ∨ raw.data.head? = some 84)
  · rw [if_pos h6] at h
    obtain ⟨s, th, re, hEq⟩ := parse_stop_reply_shape _ _ h
    simp at hEq
  rw [if_neg h6] at h
  by_cases h7 : raw.data.head? = some 109
  · rw [if_pos h7] at h
    by_cases h7a : looks_like_thread_info (raw.data.drop 1) = true
    · rw [if_pos h7a] at h
      obtain ⟨th, md, hEq⟩ := parse_thread_info_shape _ _ _ h
      simp at hEq
    · rw [if_neg h7a] at h; simp at h
  rw [if_neg h7] at h
  by_cases h8 : raw.data.head? = some 108
  · rw [if_pos h8] at h
    by_cases h8a : raw.data.length = 1
    · rw [if_pos h8a] at h; simp at h
    · rw [if_neg h8a] at h; simp at h
  rw [if_neg h8] at h
  by_cases h9 : raw.data.length = 2 ∧ is_hex_data raw.data = true
  · rw [if_pos h9] at h; simp at h
  rw [if_neg h9] at h
  by_cases h10 : utf8_valid raw.data = true ∧
      (List.IsInfix (ascii "PacketSize") raw.data ∨
        List.IsInfix (ascii "qRelocInsn") raw.data ∨
        List.IsInfix (ascii "swbreak") raw.data)
  · rw [if_pos h10] at h; simp [parse_supported_response] at h
  rw [if_neg h10] at h
  by_cases h11 : pkt.is_monitor_command = true
  · rw [if_pos h11] at h
    obtain ⟨o, hEq⟩ := parse_monitor_output_shape raw.data
    rw [hEq] at h
    simp at h
  rw [if_neg h11] at h
  by_cases h12 : is_hex_data_or_run_length raw.data = true
  · rw [if_pos h12] at h
    split at h
    · simp at h
    · rename_i data heq
      split at h
      · simp at h
      split at h
      · obtain rfl : data = d := by simpa using h
        exact heq
      split at h
      · simp at h
      · simp at h
  · rw [if_neg h12] at h; simp at h

/-- C5: the run-length decoder expands every leading occurrence of a byte
`c` followed by `*` and a count byte `n ≥ 29` into the original `c` plus
`n - 29` further copies (recursively over the remaining input); inputs
without `*` pass through unchanged; and whenever `parse_content` classifies
a payload as register or memory data, the bytes are obtained by running the
run-length decoder on the packet content before hex decoding. -/
theorem C5_run_length_decoding :
    (∀ c n rest, 29 ≤ n →
        decode_run_length (c :: 42 :: n :: rest) =
          c :: List.replicate (n - 29) c ++ decode_run_length rest)
    ∧ (∀ l, 42 ∉ l → decode_run_length l = l)
    ∧ (∀ raw pkt d,
        (parse_content raw pkt = .ok (.RegisterData d)
          ∨ parse_content raw pkt = .ok (.MemoryData d)) →
        decode_hex (decode_run_length raw.data) = .ok d) := by
  refine ⟨?_, ?_, ?_⟩
  · intro c n rest h
    simp only [decode_run_length]
    rw [if_pos h, List.replicate_succ]
  · intro l h
    induction l using decode_run_length.induct with
    | case1 c n rest ih => simp at h
    | case2 c n rest hne ih => simp at h
    | case3 c rest hne ih =>
        simp only [List.mem_cons, not_or] at h
        simp [decode_run_length, ih h.2]
    | case4 => rfl
  · intro raw pkt d h
    rcases h with h | h
    · exact parse_content_register_origin raw pkt d h
    · exact parse_content_memory_origin raw pkt d h

theorem C5_witness :
    ((29 : Nat) ≤ 32 ∧ (42 : Nat) ∉ ([100, 101] : List Nat)
      ∧ parse_content ⟨[48, 42, 32], 4⟩ (.Command (.base .LowerG)) =
          .ok (.RegisterData [0, 0]))
    ∧ decode_run_length [48, 42, 32] = 48 :: List.replicate 3 48 ++ decode_run_length []
    ∧ decode_run_length [100, 101] = [100, 101]
    ∧ decode_hex (decode_run_length [48, 42, 32]) = .ok [0, 0] := by
  refine ⟨⟨by decide, by decide, by decide⟩, ?_, ?_, ?_⟩
  · exact C5_run_length_decoding.1 48 32 [] (by decide)
  · exact C5_run_length_decoding.2.1 [100, 101] (by decide)
  · exact C5_run_length_decoding.2.2 ⟨[48, 42, 32], 4⟩ (.Command (.base .LowerG))
      [0, 0] (Or.inl (by decide))

/-! ## Claim theorems for the DWARF line stepper -/

lemma find_location_none (rows : List Row) (fa : Nat)
    (h : find_location rows fa = none) : ∀ r ∈ rows, fa < r.address := by
  induction rows with
  | nil => simp
  | cons r rest ih =>
    intro r' hr'
    simp only [find_location] at h
    by_cases hr : r.address ≤ fa
    · rw [if_pos hr] at h
      split at h
      · simp at h
      · split at h <;> simp at h
    · rw [if_neg hr] at h
      rcases List.mem_cons.mp hr' with rfl | hmem
      · omega
      · exact ih h r' hmem

lemma find_location_some (rows : List Row) (fa : Nat) (b : Row)
    (h : find_location rows fa = some b) :
    b ∈ rows ∧ b.address ≤ fa ∧
      ∀ r ∈ rows, r.address ≤ fa → r.address ≤ b.address := by
  induction rows generalizing b with
  | nil => simp [find_location] at h
  | cons r rest ih =>
    simp only [find_location] at h
    by_cases hr : r.address ≤ fa
    · rw [if_pos hr] at h
      split at h
      · rename_i hbest
        obtain rfl : r = b := by simpa using h
        refine ⟨by simp, hr, ?_⟩
        intro r' hr' hle
        rcases List.mem_cons.mp hr' with rfl | hmem
        · exact le_refl _
        · exact absurd hle (by have := find_location_none rest fa hbest r' hmem; omega)
      · rename_i b0 hbest
        obtain ⟨hb0mem, hb0le, hb0max⟩ := ih b0 hbest
        by_cases hcmp : r.address < b0.address
        · rw [if_pos hcmp] at h
          obtain rfl : b0 = b := by simpa using h
          refine ⟨List.mem_cons.mpr (Or.inr hb0mem), hb0le, ?_⟩
          intro r' hr' hle
          rcases List.mem_cons.mp hr' with rfl | hmem
          · omega
          · exact hb0max r' hmem hle
        · rw [if_neg hcmp] at h
          obtain rfl : r = b := by simpa using h
          refine ⟨by simp, hr, ?_⟩
          intro r' hr' hle
          rcases List.mem_cons.mp hr' with rfl | hmem
          · exact le_refl _
          · have := hb0max r' hmem hle
            omega
    · rw [if_neg hr] at h
      obtain ⟨hmem, hle, hmax⟩ := ih b h
      refine ⟨List.mem_cons.mpr (Or.inr hmem), hle, ?_⟩
      intro r' hr' hle'
      rcases List.mem_cons.mp hr' with rfl | hmem'
      · omega
      · exact hmax r' hmem' hle'

lemma dedupAdj_subset {l : List Nat} {x : Nat} (h : x ∈ dedupAdj l) : x ∈ l := by
  induction l using dedupAdj.induct with
  | case1 => simp [dedupAdj] at h
  | case2 a => simpa [dedupAdj] using h
  | case3 b rest ih =>
    rw [show dedupAdj (b :: b :: rest) = dedupAdj (b :: rest) from by
      simp [dedupAdj]] at h
    exact List.mem_cons.mpr (Or.inr (ih h))
  | case4 a b rest hab ih =>
    simp only [dedupAdj, if_neg hab] at h
    rcases List.mem_cons.mp h with rfl | hm
    · simp
    · exact List.mem_cons.mpr (Or.inr (ih hm))

lemma dedupAdj_head (a : Nat) (l : List Nat) :
    (dedupAdj (a :: l)).head? = some a := by
  induction l generalizing a with
  | nil => rfl
  | cons b rest ih =>
    simp only [dedupAdj]
    by_cases hab : a = b
    · rw [if_pos hab, ih b, hab]
    · rw [if_neg hab]
      rfl

lemma dedupAdj_chain {l : List Nat} (hs : List.Pairwise (· ≤ ·) l) :
    List.Chain' (· < ·) (dedupAdj l) := by
  induction l with
  | nil => simp [dedupAdj]
  | cons a rest ih =>
    cases rest with
    | nil => simp [dedupAdj]
    | cons b rest' =>
      have hab : a ≤ b := (List.pairwise_cons.mp hs).1 b (by simp)
      have ihb := ih hs.of_cons
      by_cases hab2 : a = b
      · simpa only [dedupAdj, if_pos hab2] using ihb
      · simp only [dedupAdj, if_neg hab2]
        rw [List.chain'_cons']
        refine ⟨?_, ihb⟩
        intro y hy
        rw [dedupAdj_head] at hy
        obtain rfl : b = y := by simpa using hy
        omega

/-- C6: every address returned by `find_addresses_for_line(file, line)`
resolves through `current_line` back to a source line whose path matches
`file` (component-suffix match for relative inputs, equality for absolute
ones) and whose line number equals `line`; and the returned address list is
strictly increasing (sorted with no duplicates).  The hypotheses say the
line-table rows have pairwise distinct addresses and that adding the load
bias does not saturate 64-bit arithmetic. -/
theorem C6_find_addresses_round_trip (rows : List Row) (bias : Nat)
    (file : List String) (line : Nat)
    (hdistinct : (rows.map Row.address).Nodup)
    (hnoflow : ∀ r ∈ rows, r.address + bias < 2 ^ 64) :
    List.Chain' (· < ·) (find_addresses_for_line rows bias file line)
    ∧ ∀ a ∈ find_addresses_for_line rows bias file line,
        ∃ p, current_line rows bias a = some ⟨p, line⟩ ∧
          (if path_is_absolute file then p = file else List.IsSuffix file p) := by
  constructor
  · exact dedupAdj_chain
      (List.sorted_insertionSort (· ≤ ·) (collect_line_addresses rows bias file line))
  · intro a ha
    have ha1 : a ∈ collect_line_addresses rows bias file line :=
      (List.perm_insertionSort (· ≤ ·)
        (collect_line_addresses rows bias file line)).mem_iff.mp (dedupAdj_subset ha)
    obtain ⟨r, hrmem, hrf⟩ := List.mem_filterMap.mp ha1
    split at hrf
    · simp at hrf
    · split at hrf
      · simp at hrf
      · rename_i l hl
        split at hrf
        · simp at hrf
        · rename_i hlt
          split at hrf
          · simp at hrf
          · rename_i p hp
            split at hrf
            · rename_i hmatch
              obtain rfl : sat_add64 r.address bias = a := by simpa using hrf
              obtain rfl : l = line := by omega
              have hnof := hnoflow r hrmem
              have hsat : sat_add64 r.address bias = r.address + bias := by
                unfold sat_add64
                omega
              have hfa : sat_add64 r.address bias - bias = r.address := by
                rw [hsat]
                omega
              have hfl : find_location rows r.address = some r := by
                cases hfind : find_location rows r.address with
                | none =>
                  have := find_location_none rows _ hfind r hrmem
                  omega
                | some b =>
                  obtain ⟨hbmem, hble, hbmax⟩ := find_location_some rows _ b hfind
                  have hmax := hbmax r hrmem (le_refl _)
                  have haddr : b.address = r.address := by omega
                  have hbr : b = r :=
                    List.inj_on_of_nodup_map hdistinct hbmem hrmem haddr
                  rw [hbr]
              refine ⟨p, ?_, ?_⟩
              · unfold current_line
                rw [hfa, hfl]
                simp [hp, hl]
              · unfold path_matches at hmatch
                by_cases habs : path_is_absolute file = true
                · rw [if_pos habs] at hmatch
                  rw [if_pos habs]
                  simpa using hmatch
                · rw [if_neg habs] at hmatch
                  rw [if_neg habs]
                  simpa using hmatch
            · simp at hrf

theorem C6_witness :
    ((demo_rows.map Row.address).Nodup
      ∧ (∀ r ∈ demo_rows, r.address + 0 < 2 ^ 64)
      ∧ 16 ∈ find_addresses_for_line demo_rows 0 ["hello_test.c"] 12)
    ∧ List.Chain' (· < ·) (find_addresses_for_line demo_rows 0 ["hello_test.c"] 12)
    ∧ ∃ p, current_line demo_rows 0 16 = some ⟨p, 12⟩ ∧
        (if path_is_absolute ["hello_test.c"] then p = ["hello_test.c"]
         else List.IsSuffix ["hello_test.c"] p) := by
  have h := C6_find_addresses_round_trip demo_rows 0 ["hello_test.c"] 12
    (by decide) (by decide)
  exact ⟨⟨by decide, by decide, by decide⟩, h.1, h.2 16 (by decide)⟩

end Dang
